import Mathlib

/-!
Shallow embedding of the crediit-intel repository (FastAPI credit-intelligence
pipeline) and proofs about it.

Modelling conventions:
- Python floats are modelled as rationals; float NaN/inf corner states are not
  representable and absent Python values are Option.none.
- SQLAlchemy rows are Lean structures; a database session is a record of lists.
- Python stable sorting functions and SQL ORDER BY are modelled by a
  structurally recursive stable insertion sort, insertionSort below, taking the
  "goes before" Boolean comparison used at each call site.
- External collaborators (the LightGBM regressor, the SHAP explainer, VADER,
  feedparser entries, the yfinance price provider, the wall clock) are
  parameters of the embedded functions; everything computed by repository code
  is embedded from the source.
-/

namespace CrediitIntel

/-! ### Stable sorting (model of Python sorted and SQL ORDER BY) -/

/-- Stable insertion of x into l: x is placed before the first element y such
that le x y; elements of l keep their relative order. -/
def insertD {α : Type} (le : α → α → Bool) : α → List α → List α
  | x, [] => [x]
  | x, y :: ys => if le x y then x :: y :: ys else y :: insertD le x ys

/-- Stable insertion sort: processes the input left to right, so an earlier
input element is placed before any later element it ties with (the stability
contract of both Python sorted and the embedding of SQL ORDER BY). -/
def insertionSort {α : Type} (le : α → α → Bool) : List α → List α
  | [] => []
  | x :: xs => insertD le x (insertionSort le xs)

/-! ### String helpers (models of Python str methods used by the code) -/

/-- Model of Python str.lower() restricted to the character-wise mapping. -/
def pyLower (s : String) : String := ⟨s.data.map Char.toLower⟩

/-- Model of Python str.strip(): removes leading and trailing whitespace. -/
def pyStrip (s : String) : String :=
  ⟨((s.data.dropWhile Char.isWhitespace).reverse.dropWhile Char.isWhitespace).reverse⟩

/-- Auxiliary: needle occurs at the head of hay. -/
def strStartsWith : List Char → List Char → Bool
  | [], _ => true
  | _ :: _, [] => false
  | a :: as, b :: bs => a == b && strStartsWith as bs

/-- Auxiliary: needle occurs somewhere inside hay (contiguously). -/
def strHasSub (n : List Char) : List Char → Bool
  | [] => strStartsWith n []
  | c :: t => strStartsWith n (c :: t) || strHasSub n t

/-- Model of the Python substring test: needle in hay. -/
def pyIn (needle hay : String) : Bool := strHasSub needle.data hay.data

/-! ### Data model (src/app/models.py)

Timestamps and dates are modelled as integers (seconds since the epoch for
DateTime columns, an abstract ordered integer for Date columns). -/

/-- Row of the issuers table. -/
structure Issuer where
  id : Nat
  name : String
  ticker : Option String
  deriving DecidableEq, Repr

/-- Row of the fundamentals table; revenue, ebitda and total_debt are nullable. -/
structure Fundamental where
  issuer_id : Nat
  report_date : Int
  revenue : Option ℚ
  ebitda : Option ℚ
  total_debt : Option ℚ
  deriving DecidableEq, Repr

/-- Row of the news table; link is unique, processed marks NLP consumption. -/
structure News where
  id : Nat
  title : String
  link : String
  published_at : Option Int
  summary : Option String
  processed : Bool
  deriving DecidableEq, Repr

/-- The JSON payload attached to price events (OHLCV fields, each nullable). -/
structure Extra where
  open_ : Option ℚ
  high : Option ℚ
  low : Option ℚ
  close : Option ℚ
  volume : Option Int
  deriving DecidableEq, Repr

/-- Row of the events table; issuer_id and news_id are nullable references. -/
structure Event where
  issuer_id : Option Nat
  news_id : Option Nat
  event_type : String
  description : Option String
  sentiment : Option ℚ
  timestamp : Int
  extra : Option Extra
  deriving DecidableEq, Repr

/-- A database session: the four tables touched by the core pipeline. -/
structure DB where
  issuers : List Issuer
  fundamentals : List Fundamental
  news : List News
  events : List Event
  deriving DecidableEq, Repr

/-! ### Feature engineering (src/app/features.py) -/

/-- EPS = 1e-6 of features.py (the float literal is modelled by the exact
rational it denotes in decimal). -/
def EPS : ℚ := 1 / 1000000

/-- Embeds features.py _safe_div: 0.0 when an operand is absent, otherwise
a / b with the divisor replaced by EPS when its magnitude is at most EPS.
The Python try/except cannot fire on numeric inputs (the chosen divisor is
never zero), so the embedded function is total by construction. -/
def safe_div (a b : Option ℚ) : ℚ :=
  match a, b with
  | some a, some b => a / (if EPS < |b| then b else EPS)
  | _, _ => 0

/-- The six-dimensional feature vector, in the fixed field order used as the
model input order. -/
structure FeatureVec where
  debt_to_ebitda : ℚ
  ebitda_margin : ℚ
  revenue_growth : ℚ
  avg_sentiment : ℚ
  recent_revenue : ℚ
  recent_total_debt : ℚ
  deriving DecidableEq, Repr

/-- The all-zero feature vector returned when an issuer has no fundamentals. -/
def zeroFeatures : FeatureVec := ⟨0, 0, 0, 0, 0, 0⟩

/-- The fundamentals of one issuer (WHERE issuer_id == issuer_id). -/
def issuerFunds (db : DB) (issuer_id : Nat) : List Fundamental :=
  db.fundamentals.filter fun f => decide (f.issuer_id = issuer_id)

/-- ORDER BY report_date DESC LIMIT 5 over the issuer's fundamentals. -/
def f_rowsOf (db : DB) (issuer_id : Nat) : List Fundamental :=
  (insertionSort (fun a b => decide (b.report_date ≤ a.report_date))
    (issuerFunds db issuer_id)).take 5

/-- The issuer's events, ORDER BY timestamp DESC LIMIT 10 (all event types,
price events included). -/
def recentEventsOf (db : DB) (issuer_id : Nat) : List Event :=
  (insertionSort (fun a b => decide (b.timestamp ≤ a.timestamp))
    (db.events.filter fun e => decide (e.issuer_id = some issuer_id))).take 10

/-- The avg_sentiment computation of compute_features_for_issuer: the non-null
sentiments among the 10 most recent events, averaged, 0.0 when none. -/
def avgSentimentOf (db : DB) (issuer_id : Nat) : ℚ :=
  let sentiments := (recentEventsOf db issuer_id).filterMap Event.sentiment
  if sentiments.isEmpty then 0 else sentiments.sum / sentiments.length

/-- Embeds features.py compute_features_for_issuer: zero vector when the
issuer has no fundamentals, otherwise ratios from the latest (and previous)
fundamental via safe_div plus the recent-events average sentiment. -/
def compute_features_for_issuer (db : DB) (issuer_id : Nat) : FeatureVec :=
  match f_rowsOf db issuer_id with
  | [] => zeroFeatures
  | latest :: restRows =>
    let prev := restRows.head?
    let debt := latest.total_debt.getD 0
    let ebitda := latest.ebitda.getD 0
    let debt_to_ebitda := safe_div (some debt) (some ebitda)
    let revenue := latest.revenue.getD 0
    let ebitda_margin := safe_div (some ebitda) (some revenue)
    let revenue_growth :=
      match prev with
      | some p =>
        let prev_revenue := p.revenue.getD 0
        safe_div (some (revenue - prev_revenue))
          (some (if EPS < |prev_revenue| then prev_revenue else EPS))
      | none => 0
    ⟨debt_to_ebitda, ebitda_margin, revenue_growth,
      avgSentimentOf db issuer_id, revenue, debt⟩

/-! ### Label synthesizer (src/app/ml.py, _synthesize_label_from_row) -/

/-- A training row as seen by _synthesize_label_from_row (the four fields the
heuristic reads; the Series.get defaults never fire because training rows
always carry all six feature columns). -/
structure LabelRow where
  debt_to_ebitda : ℚ
  revenue_growth : ℚ
  ebitda_margin : ℚ
  avg_sentiment : ℚ
  deriving DecidableEq, Repr

/-- Embeds _synthesize_label_from_row; the np.random.normal(0, 25) draw is the
explicit noise argument. Note the debt penalty uses min(d, 10) with no lower
clamp at zero. -/
def synthesize_label_from_row (row : LabelRow) (noise : ℚ) : ℚ :=
  let base : ℚ := 600
  let debt_penalty := 100 * min row.debt_to_ebitda 10 / 10
  let growth_bonus := 150 * max (min row.revenue_growth 1) (-1)
  let margin_bonus := 100 * max (min row.ebitda_margin 1) (-1)
  let sentiment_bonus := 100 * max (min row.avg_sentiment 1) (-1)
  let score := base - debt_penalty + growth_bonus + margin_bonus + sentiment_bonus + noise
  max 300 (min 850 score)

/-- clamp(x, lo, hi) as written in the spec formula. -/
def specClamp (x lo hi : ℚ) : ℚ := max lo (min x hi)

/-- The label formula exactly as the claim states it (debt term clamped to
[0, 10] from below as well), for comparison against the code. -/
def claimLabelFormula (row : LabelRow) (noise : ℚ) : ℚ :=
  max 300 (min 850
    (600 - 100 * specClamp row.debt_to_ebitda 0 10 / 10
      + 150 * specClamp row.revenue_growth (-1) 1
      + 100 * specClamp row.ebitda_margin (-1) 1
      + 100 * specClamp row.avg_sentiment (-1) 1
      + noise))

/-! ### Scorer/Explainer (src/app/ml.py, predict_and_explain)

The fitted LightGBM regressor and the SHAP explainer are opaque external
artifacts; they enter the embedding as function parameters. An explainer value
of none models the exception path of the SHAP block (including a shap_values
result too short to index), which the code turns into an empty attribution
list. -/

/-- The fixed feature column order persisted with the model. -/
def feature_cols : List String :=
  ["debt_to_ebitda", "ebitda_margin", "revenue_growth", "avg_sentiment",
   "recent_revenue", "recent_total_debt"]

/-- Column lookup in the single-row frame X (X.iloc[0][fname]). -/
def getFeat (f : FeatureVec) (name : String) : ℚ :=
  if name = "debt_to_ebitda" then f.debt_to_ebitda
  else if name = "ebitda_margin" then f.ebitda_margin
  else if name = "revenue_growth" then f.revenue_growth
  else if name = "avg_sentiment" then f.avg_sentiment
  else if name = "recent_revenue" then f.recent_revenue
  else if name = "recent_total_debt" then f.recent_total_debt
  else 0

/-- One attribution entry of the shap list. -/
structure ShapEntry where
  feature : String
  value : ℚ
  shap_value : ℚ
  deriving DecidableEq, Repr

/-- The dict returned by predict_and_explain. -/
structure PredictResult where
  score : ℚ
  raw_score : ℚ
  features : FeatureVec
  shap : List ShapEntry
  deriving DecidableEq, Repr

/-- The unsorted shap list, built in feature_cols declaration order; an absent
explainer (the exception path) or a shap vector shorter than the column list
(an IndexError inside the try block) yields the empty fallback list. -/
def buildShapList (explainer : Option (FeatureVec → List ℚ)) (feats : FeatureVec) :
    List ShapEntry :=
  match explainer with
  | none => []
  | some ex =>
    let sv := ex feats
    if sv.length < feature_cols.length then []
    else (feature_cols.zip sv).map fun fv => ⟨fv.1, getFeat feats fv.1, fv.2⟩

/-- The comparison of the final sort: descending absolute shap value
(sorted with key abs and reverse, which is stable on ties). -/
def shapLe (a b : ShapEntry) : Bool := decide (|b.shap_value| ≤ |a.shap_value|)

/-- Embeds ml.py predict_and_explain: computes the issuer's features, clamps
the model's raw prediction to [300, 850] for score, reports raw_score
unclamped, and returns the attribution list sorted by descending absolute
shap value (stable). -/
def predict_and_explain (model : FeatureVec → ℚ)
    (explainer : Option (FeatureVec → List ℚ)) (db : DB) (issuer_id : Nat) :
    PredictResult :=
  let feats := compute_features_for_issuer db issuer_id
  let raw_pred := model feats
  let score := max 300 (min 850 raw_pred)
  let shap_list := buildShapList explainer feats
  ⟨score, raw_pred, feats, insertionSort shapLe shap_list⟩

/-! ### Feed ingestion (src/app/ingestion.py, ingest_rss)

A parsed feed entry is modelled with its four extracted attributes; a missing
attribute is none, and the published attribute carries the already-parsed
timestamp (dateutil parsing being external; an unparseable value is none).

Two behaviours of the source are embedded faithfully and explained inline:
the summary extraction line calls getattr with four arguments whenever the
summary attribute is falsy, raising TypeError, and crud.create_news calls
model_dump() on a SQLAlchemy models.News instance, raising AttributeError.
Both exceptions are swallowed by the per-feed handler, which abandons the
remaining entries of that feed. -/

/-- A feed entry as ingest_rss reads it. -/
structure FeedEntry where
  link : Option String
  title : Option String
  summary : Option String
  published : Option Int
  deriving DecidableEq, Repr

/-- Python truthiness of an optional string (None and the empty string are
falsy). -/
def truthyStr : Option String → Bool
  | none => false
  | some s => !decide (s = "")

/-- Embeds the per-feed entry loop of ingest_rss, returning the news table
and the count of newly inserted items. An entry with a falsy summary hits
the malformed 4-argument getattr call (TypeError) and an entry reaching the
insert hits model_dump() on an ORM object (AttributeError); both abandon the
rest of the feed via the per-feed exception handler, leaving the table and
count as they stand. -/
def processFeedEntries : List FeedEntry → List News → List News × Nat
  | [], db => (db, 0)
  | e :: rest, db =>
    if truthyStr e.summary = false then
      (db, 0)
    else if truthyStr e.link = false ∨ truthyStr e.title = false then
      processFeedEntries rest db
    else if (db.find? fun n => decide (n.link = e.link.getD "")).isSome then
      processFeedEntries rest db
    else
      (db, 0)

/-- Embeds ingest_rss over a configured list of feeds, each a list of parsed
entries; returns the total inserted count and the news table. -/
def ingest_rss : List News → List (List FeedEntry) → Nat × List News
  | db, [] => (0, db)
  | db, f :: rest =>
    let fr := processFeedEntries f db
    let rr := ingest_rss fr.1 rest
    (fr.2 + rr.1, rr.2)

/-! ### Price ingestion (src/app/ingestion.py, ingest_yahoo_prices)

The yfinance provider is a parameter mapping a (stripped) ticker to its list
of history rows; an issuer whose fetch raises is indistinguishable from one
with an empty history, both being skipped. Sample timestamps are already
normalized to UTC seconds (pd_timestamp_to_datetime being conversion-only). -/

/-- One row of the provider's OHLCV history. -/
structure PriceRow where
  ts : Int
  open_ : Option ℚ
  high : Option ℚ
  low : Option ℚ
  close : Option ℚ
  volume : Option Int
  deriving DecidableEq, Repr

/-- The calendar day of a UTC timestamp in epoch seconds (func.date and
datetime.date() agree on it). -/
def dayOf (ts : Int) : Int := Int.ediv ts 86400

/-- The string sqlite strftime produces for the first duplicate check: the
embedded rendering keeps the instant and the trailing Z of the format
%Y-%m-%dT%H:%M:%fZ. -/
def sqliteTsFmt (ts : Int) : String := toString ts ++ ".000Z"

/-- The string datetime.isoformat() produces for an aware UTC datetime: the
embedded rendering keeps the instant and the +00:00 offset suffix. -/
def pyIsoFmt (ts : Int) : String := toString ts ++ "+00:00"

/-- The first duplicate check of ingest_yahoo_prices: any event of the issuer
whose sqlite-formatted timestamp equals the sample's isoformat string (the two
renderings differ, so this check never fires, but it is embedded as written). -/
def priceTsPred (issuerId : Nat) (ts : Int) (e : Event) : Bool :=
  decide (e.issuer_id = some issuerId) &&
    decide (sqliteTsFmt e.timestamp = pyIsoFmt ts)

/-- The second duplicate check: a price event of the issuer on the same
calendar day. -/
def priceDayPred (issuerId : Nat) (day : Int) (e : Event) : Bool :=
  decide (e.issuer_id = some issuerId) && decide (e.event_type = "price") &&
    decide (dayOf e.timestamp = day)

/-- The price Event a history row becomes. -/
def mkPriceEvent (issuerId : Nat) (ticker : String) (row : PriceRow) : Event :=
  ⟨some issuerId, none, "price",
    some ("Price snapshot for " ++ ticker ++ " at " ++ pyIsoFmt row.ts),
    none, row.ts, some ⟨row.open_, row.high, row.low, row.close, row.volume⟩⟩

/-- The disjunction of the two duplicate checks for one sample row. -/
def rowCovered (issuerId : Nat) (row : PriceRow) (evs : List Event) : Bool :=
  evs.any (priceTsPred issuerId row.ts) ||
    evs.any (priceDayPred issuerId (dayOf row.ts))

/-- Embeds the per-issuer sample loop of ingest_yahoo_prices: a row is skipped
when either duplicate check fires, otherwise its price event is committed. -/
def processPriceRows (issuerId : Nat) (ticker : String) :
    List PriceRow → List Event → List Event × Nat
  | [], evs => (evs, 0)
  | row :: rest, evs =>
    if rowCovered issuerId row evs then
      processPriceRows issuerId ticker rest evs
    else
      let r := processPriceRows issuerId ticker rest
        (evs ++ [mkPriceEvent issuerId ticker row])
      (r.1, r.2 + 1)

/-- Embeds the issuer loop of ingest_yahoo_prices: issuers with a null ticker
are excluded by the query, a ticker that strips to empty is skipped, and so is
an empty history. -/
def ingestPricesGo (histF : String → List PriceRow) :
    List Issuer → List Event → List Event × Nat
  | [], evs => (evs, 0)
  | iss :: rest, evs =>
    match iss.ticker with
    | none => ingestPricesGo histF rest evs
    | some t =>
      let ticker := pyStrip t
      if ticker = "" then ingestPricesGo histF rest evs
      else if (histF ticker).isEmpty then ingestPricesGo histF rest evs
      else
        let pr := processPriceRows iss.id ticker (histF ticker) evs
        let rr := ingestPricesGo histF rest pr.1
        (rr.1, pr.2 + rr.2)

/-- Embeds ingest_yahoo_prices on a database session: returns the inserted
count and the updated session. -/
def ingest_yahoo_prices (db : DB) (histF : String → List PriceRow) : Nat × DB :=
  let r := ingestPricesGo histF db.issuers db.events
  (r.2, { db with events := r.1 })

/-! ### NLP pass (src/app/nlp.py and ingestion.py, run_nlp_on_news)

classify_event is repository code and is embedded; the VADER sentiment
analyzer is external and enters as a parameter, wrapped by the empty-text
guard of analyze_sentiment. -/

/-- The ordered keyword table of nlp.py (insertion order of the dict). -/
def KEYWORDS : List (String × List String) :=
  [("earnings", ["earnings", "q1", "q2", "q3", "q4", "quarter", "results", "profit"]),
   ("merger", ["merger", "acquire", "acquisition", "buyout", "takeover"]),
   ("downgrade", ["downgrade", "cut rating", "lowered", "revised down"]),
   ("upgrade", ["upgrade", "raised", "reiterat", "upgraded"]),
   ("lawsuit", ["lawsuit", "sued", "legal", "settlement", "lawsuits"]),
   ("management", ["ceo", "cfo", "resign", "appoint", "appoints", "board"])]

/-- First category of the table one of whose keywords occurs in the lowered
text. -/
def classifyGo (t : String) : List (String × List String) → String
  | [] => "other"
  | (etype, kws) :: rest =>
    if kws.any (fun kw => pyIn kw t) then etype else classifyGo t rest

/-- Embeds nlp.py classify_event. -/
def classify_event (text : String) : String := classifyGo (pyLower text) KEYWORDS

/-- Embeds nlp.py analyze_sentiment around the external VADER scorer. -/
def analyze_sentiment (vader : String → ℚ) (text : String) : ℚ :=
  if text = "" then 0 else vader text

/-- Embeds the issuer-resolution loop of run_nlp_on_news: one pass over the
issuers, checking the ticker then the name of each as a lowered substring of
the lowered title; the first issuer that matches wins, none when no issuer
matches. -/
def matchIssuerLoop : List Issuer → String → Option Nat
  | [], _ => none
  | iss :: rest, title_l =>
    if truthyStr iss.ticker && pyIn (pyLower (iss.ticker.getD "")) title_l then
      some iss.id
    else if !decide (iss.name = "") && pyIn (pyLower iss.name) title_l then
      some iss.id
    else matchIssuerLoop rest title_l

/-- The claim-level description of issuer resolution (C9): scan all issuers
and return the first, in iteration order, whose ticker or name occurs
case-insensitively as a substring of the title; absent when none matches. -/
def specResolveIssuer (issuers : List Issuer) (title : String) : Option Nat :=
  (issuers.find? fun iss =>
    (truthyStr iss.ticker && pyIn (pyLower (iss.ticker.getD "")) (pyLower title)) ||
      (!decide (iss.name = "") && pyIn (pyLower iss.name) (pyLower title))).map Issuer.id

/-- The Event run_nlp_on_news creates for one news row: classified and
sentiment-scored from title-plus-summary, issuer resolved from the title
alone, description the summary when truthy else the title, timestamp the
publish time when present else the commit clock (the server default). -/
def mkEventForNews (issuers : List Issuer) (vader : String → ℚ) (now : Int)
    (n : News) : Event :=
  let text := (n.title ++ " ") ++ n.summary.getD ""
  ⟨matchIssuerLoop issuers (pyLower n.title), some n.id, classify_event text,
    some (match n.summary with
      | some s => if s = "" then n.title else s
      | none => n.title),
    some (analyze_sentiment vader text),
    n.published_at.getD now, none⟩

/-- ORDER BY published_at DESC NULLS LAST on news rows. -/
def newsOrd (a b : News) : Bool :=
  match a.published_at, b.published_at with
  | some pa, some pb => decide (pb ≤ pa)
  | some _, none => true
  | none, some _ => false
  | none, none => true

/-- The unprocessed news rows in the order run_nlp_on_news visits them. -/
def nlpRows (db : DB) : List News :=
  insertionSort newsOrd (db.news.filter fun n => decide (n.processed = false))

/-- Embeds run_nlp_on_news: creates one event per unprocessed news row (in
the query's order), marks every visited row processed, and returns the count
of events inserted together with the updated session. -/
def run_nlp_on_news (db : DB) (vader : String → ℚ) (now : Int) : Nat × DB :=
  let rows := nlpRows db
  let evs := rows.map (mkEventForNews db.issuers vader now)
  ((rows.length : Nat),
    { db with
        news := db.news.map fun n =>
          if n.processed then n else { n with processed := true },
        events := db.events ++ evs })

/-! ### Claim-level definitions and concrete instances -/

/-- The C7 claim formula as its words read: among the events that carry a
non-null sentiment, the 10 most recent, averaged (filter first, then LIMIT). -/
def claimAvgSentiment (db : DB) (issuer_id : Nat) : ℚ :=
  let qualifying := (insertionSort (fun a b => decide (b.timestamp ≤ a.timestamp))
    (db.events.filter fun e =>
      decide (e.issuer_id = some issuer_id) && e.sentiment.isSome)).take 10
  let sentiments := qualifying.filterMap Event.sentiment
  if sentiments.isEmpty then 0 else sentiments.sum / sentiments.length

/-- The amended C7 reading: take the issuer's 10 most recent events of any
type, then average the non-null sentiments among them; 0.0 when none of those
ten carries a sentiment. -/
def amendedAvgSentiment (db : DB) (issuer_id : Nat) : ℚ :=
  let top10 := (insertionSort (fun a b => decide (b.timestamp ≤ a.timestamp))
    (db.events.filter fun e => decide (e.issuer_id = some issuer_id))).take 10
  let sentiments := top10.filterMap Event.sentiment
  if sentiments.isEmpty then 0 else sentiments.sum / sentiments.length

/-- An empty database session. -/
def emptyDB : DB := ⟨[], [], [], []⟩

/-- A price event of issuer 1 on day ts. -/
def nullEvt (ts : Int) : Event := ⟨some 1, none, "price", none, none, ts, none⟩

/-- Database refuting the filter-first reading of C7: issuer 1 has one
fundamental, ten recent sentiment-free price events (timestamps 2 to 11) and
one older event with sentiment 1 (timestamp 1). -/
def c7db : DB :=
  ⟨[⟨1, "Acme", some "ACM"⟩], [⟨1, 0, some 100, some 50, some 100⟩], [],
    [nullEvt 11, nullEvt 10, nullEvt 9, nullEvt 8, nullEvt 7, nullEvt 6,
     nullEvt 5, nullEvt 4, nullEvt 3, nullEvt 2,
     ⟨some 1, none, "other", none, some 1, 1, none⟩]⟩

/-- The training row refuting the C6 debt-term clamp: negative debt ratio. -/
def c6row : LabelRow := ⟨-10, 0, 0, 0⟩

/-- Issuers used by the C9 and C10 witnesses. -/
def wIssuers : List Issuer := [⟨1, "Acme", some "ACM"⟩, ⟨2, "Globex", some "GLX"⟩]

/-- A constant stand-in for the external sentiment scorer in witnesses. -/
def vader0 : String → ℚ := fun _ => 0

/-- Unprocessed news row for the C9 witness. -/
def c9news : News := ⟨1, "Acme reports Q2 earnings", "l1", some 5, some "sum", false⟩

/-- Database for the C9 witness. -/
def c9db : DB := ⟨wIssuers, [], [c9news], []⟩

/-- Two news rows with the same title and different summaries (C10 witness). -/
def c10n1 : News := ⟨1, "Acme wins case", "l1", some 5, some "first summary", false⟩

/-- Second news row of the C10 witness. -/
def c10n2 : News := ⟨2, "Acme wins case", "l2", some 4, some "a very different summary", false⟩

/-- A stored news item for the C4 witness. -/
def c4news : News := ⟨1, "stored title", "x", none, none, false⟩

/-- A feed entry for the C4 witness whose link is already stored but whose
title drifted. -/
def c4entry : FeedEntry := ⟨some "x", some "drifted title", some "s", none⟩

/-- A provider sample row on calendar day 1 (C5 witness). -/
def c5row : PriceRow := ⟨86460, none, none, none, none, none⟩

/-- A stored price event of issuer 1 on calendar day 1 (C5 witness). -/
def c5evt : Event := ⟨some 1, none, "price", none, none, 86400, none⟩

/-! ## Theorems

First the generic facts about the stable sort, then the claim theorems. -/

theorem mem_insertD {α : Type} (le : α → α → Bool) (x a : α) (l : List α) :
    a ∈ insertD le x l ↔ a = x ∨ a ∈ l := by
  induction l with
  | nil => simp [insertD]
  | cons y ys ih =>
    by_cases h : le x y = true
    · simp [insertD, h]
    · simp only [insertD, if_neg h, List.mem_cons, ih]
      tauto

theorem pairwise_insertD {α : Type} (le : α → α → Bool)
    (htrans : ∀ a b c, le a b = true → le b c = true → le a c = true)
    (htotal : ∀ a b, le a b = true ∨ le b a = true)
    (x : α) (l : List α) (h : List.Pairwise (fun a b => le a b = true) l) :
    List.Pairwise (fun a b => le a b = true) (insertD le x l) := by
  induction l with
  | nil => simp [insertD]
  | cons y ys ih =>
    rcases h with - | ⟨hy, hys⟩
    by_cases hxy : le x y = true
    · simp only [insertD, if_pos hxy]
      refine List.Pairwise.cons ?_ (List.Pairwise.cons hy hys)
      intro b hb
      rcases List.mem_cons.mp hb with rfl | hb
      · exact hxy
      · exact htrans x y b hxy (hy b hb)
    · have hyx : le y x = true := (htotal x y).resolve_left hxy
      simp only [insertD, if_neg hxy]
      refine List.Pairwise.cons ?_ (ih hys)
      intro b hb
      rcases (mem_insertD le x b ys).mp hb with rfl | hb
      · exact hyx
      · exact hy b hb

theorem pairwise_insertionSort {α : Type} (le : α → α → Bool)
    (htrans : ∀ a b c, le a b = true → le b c = true → le a c = true)
    (htotal : ∀ a b, le a b = true ∨ le b a = true)
    (l : List α) :
    List.Pairwise (fun a b => le a b = true) (insertionSort le l) := by
  induction l with
  | nil => simp [insertionSort]
  | cons x xs ih => exact pairwise_insertD le htrans htotal x _ ih

theorem insertD_ne_nil {α : Type} (le : α → α → Bool) (x : α) (l : List α) :
    insertD le x l ≠ [] := by
  cases l with
  | nil => simp [insertD]
  | cons y ys =>
    by_cases h : le x y = true <;> simp [insertD, h]

theorem insertionSort_eq_nil_iff {α : Type} (le : α → α → Bool) (l : List α) :
    insertionSort le l = [] ↔ l = [] := by
  cases l with
  | nil => simp [insertionSort]
  | cons x xs =>
    simp only [insertionSort]
    exact ⟨fun h => absurd h (insertD_ne_nil le x _), fun h => by cases h⟩

theorem filter_insertD {α : Type} (le : α → α → Bool) (p : α → Bool)
    (h2 : ∀ a b, p a = true → le a b = false → p b = false)
    (x : α) (l : List α) :
    (insertD le x l).filter p =
      if p x then x :: l.filter p else l.filter p := by
  induction l with
  | nil => by_cases hx : p x = true <;> simp [insertD, hx]
  | cons y ys ih =>
    by_cases hxy : le x y = true
    · by_cases hx : p x = true <;> simp [insertD, hxy, hx]
    · have hxy' : le x y = false := by simp [hxy]
      by_cases hx : p x = true
      · have hy : p y = false := h2 x y hx hxy'
        simp [insertD, hxy', hx, hy, ih]
      · have hx' : p x = false := by simp at hx; simp [hx]
        by_cases hy : p y = true <;> simp [insertD, hxy', hx', hy, ih]

theorem filter_insertionSort {α : Type} (le : α → α → Bool) (p : α → Bool)
    (h2 : ∀ a b, p a = true → le a b = false → p b = false)
    (l : List α) :
    (insertionSort le l).filter p = l.filter p := by
  induction l with
  | nil => simp [insertionSort]
  | cons x xs ih =>
    rw [insertionSort, filter_insertD le p h2, ih]
    by_cases hx : p x = true <;> simp [hx]

/-! ### Claim theorems -/

/-- C1: for every issuer and every model, predict_and_explain reports
raw_score as the model's raw prediction on the issuer's current feature
vector, score as that same prediction clamped to the interval from 300 to
850, and hence the score always lies within those bounds. -/
theorem c1_score_clamped (model : FeatureVec → ℚ)
    (explainer : Option (FeatureVec → List ℚ)) (db : DB) (issuer_id : Nat) :
    (predict_and_explain model explainer db issuer_id).raw_score
        = model (compute_features_for_issuer db issuer_id) ∧
    (predict_and_explain model explainer db issuer_id).score
        = max 300 (min 850
            (predict_and_explain model explainer db issuer_id).raw_score) ∧
    300 ≤ (predict_and_explain model explainer db issuer_id).score ∧
    (predict_and_explain model explainer db issuer_id).score ≤ 850 := by
  refine ⟨rfl, rfl, le_max_left _ _, ?_⟩
  exact max_le (by norm_num) (min_le_left _ _)

/-- C2: safe_div returns 0 when either operand is absent; with both present
it divides by b when the magnitude of b exceeds EPS and by EPS otherwise, so
for every divisor of magnitude at most EPS the result is exactly a over EPS,
total by construction (no exception path is reachable) and carrying the sign
of the numerator. -/
theorem c2_safe_div (a b : ℚ) :
    safe_div none (some b) = 0 ∧ safe_div (some a) none = 0 ∧
    safe_div none none = 0 ∧
    (EPS < |b| → safe_div (some a) (some b) = a / b) ∧
    (|b| ≤ EPS →
      safe_div (some a) (some b) = a / EPS ∧
      (0 < a → 0 < safe_div (some a) (some b)) ∧
      (a < 0 → safe_div (some a) (some b) < 0) ∧
      (a = 0 → safe_div (some a) (some b) = 0)) := by
  refine ⟨rfl, rfl, rfl, ?_, ?_⟩
  · intro h
    simp [safe_div, if_pos h]
  · intro h
    have h' : ¬ EPS < |b| := not_lt.mpr h
    have heq : safe_div (some a) (some b) = a / EPS := by
      simp [safe_div, if_neg h']
    have hEPS : (0 : ℚ) < EPS := by norm_num [EPS]
    refine ⟨heq, ?_, ?_, ?_⟩
    · intro ha
      rw [heq]
      exact div_pos ha hEPS
    · intro ha
      rw [heq]
      exact div_neg_of_neg_of_pos ha hEPS
    · intro ha
      rw [heq, ha, zero_div]

/-- Witness for C2 at concrete inputs: the ordinary branch at b equal 1 and
the near-zero branch at b equal 0, where the quotient is positive for the
positive numerator. -/
theorem c2_safe_div_witness :
    (EPS < |(1 : ℚ)| ∧ safe_div (some 5) (some 1) = 5 / 1) ∧
    (|(0 : ℚ)| ≤ EPS ∧ safe_div (some 1) (some 0) = 1 / EPS ∧
      0 < safe_div (some 1) (some 0)) := by
  have h1 : EPS < |(1 : ℚ)| := by norm_num [EPS]
  have h0 : |(0 : ℚ)| ≤ EPS := by norm_num [EPS]
  have hc := (c2_safe_div 1 0).2.2.2.2 h0
  exact ⟨⟨h1, (c2_safe_div 5 1).2.2.2.1 h1⟩, ⟨h0, hc.1, hc.2.1 one_pos⟩⟩

/-- C3: an issuer with no fundamentals gets exactly the all-zero
six-dimensional feature vector, with no error path involved. -/
theorem c3_zero_fundamentals (db : DB) (issuer_id : Nat)
    (h : issuerFunds db issuer_id = []) :
    compute_features_for_issuer db issuer_id = zeroFeatures := by
  have hf : f_rowsOf db issuer_id = [] := by
    unfold f_rowsOf
    rw [h]
    rfl
  unfold compute_features_for_issuer
  rw [hf]

/-- Witness for C3: the empty database. -/
theorem c3_zero_fundamentals_witness :
    issuerFunds emptyDB 1 = [] ∧
    compute_features_for_issuer emptyDB 1 = zeroFeatures :=
  ⟨rfl, c3_zero_fundamentals emptyDB 1 rfl⟩

/-- C6 counterexample: at the row with debt_to_ebitda equal to minus 10 (and
zero elsewhere, zero noise) the code produces 700 while the claimed formula,
whose debt term is clamped below at 0, produces 600 — the claim as stated is
false on this input. -/
theorem c6_label_counterexample :
    synthesize_label_from_row c6row 0 = 700 ∧
    claimLabelFormula c6row 0 = 600 ∧
    synthesize_label_from_row c6row 0 ≠ claimLabelFormula c6row 0 := by
  refine ⟨?_, ?_, ?_⟩ <;>
    norm_num [synthesize_label_from_row, claimLabelFormula, specClamp, c6row,
      min_def, max_def]

/-- C6 amended: the synthetic label equals 600 minus 100 times min(d, 10)
over 10 (no lower clamp on the debt ratio) plus the three clamped bonus terms
plus the noise draw, the sum clamped to the interval from 300 to 850; and the
result is reproducible, identical for identical row and noise. -/
theorem c6_label_amended (row row' : LabelRow) (noise noise' : ℚ) :
    synthesize_label_from_row row noise =
      max 300 (min 850
        (600 - 100 * min row.debt_to_ebitda 10 / 10
          + 150 * specClamp row.revenue_growth (-1) 1
          + 100 * specClamp row.ebitda_margin (-1) 1
          + 100 * specClamp row.avg_sentiment (-1) 1
          + noise)) ∧
    (row = row' → noise = noise' →
      synthesize_label_from_row row noise
        = synthesize_label_from_row row' noise') := by
  constructor
  · simp [synthesize_label_from_row, specClamp, max_comm]
  · rintro rfl rfl
    rfl

/-- Witness for C6 amended, discharging the determinism hypotheses at the
concrete row. -/
theorem c6_label_amended_witness :
    c6row = c6row ∧ (0 : ℚ) = 0 ∧
    synthesize_label_from_row c6row 0 = synthesize_label_from_row c6row 0 :=
  ⟨rfl, rfl, (c6_label_amended c6row c6row 0 0).2 rfl rfl⟩

/-- C7 counterexample: in c7db issuer 1 has a fundamental, its ten most
recent events carry no sentiment, and an older event carries sentiment 1;
the code averages over the ten most recent events (getting 0.0) while the
claim's filter-first reading averages the sentiment-bearing events (getting
1), so the claim as stated is false on this database. -/
theorem c7_avg_sentiment_counterexample :
    issuerFunds c7db 1 ≠ [] ∧
    (compute_features_for_issuer c7db 1).avg_sentiment = 0 ∧
    claimAvgSentiment c7db 1 = 1 ∧
    (compute_features_for_issuer c7db 1).avg_sentiment
      ≠ claimAvgSentiment c7db 1 := by
  have h2 : (compute_features_for_issuer c7db 1).avg_sentiment = 0 := by decide
  have h3 : claimAvgSentiment c7db 1 = 1 := by
    simp [claimAvgSentiment, c7db, nullEvt, insertionSort, insertD]
  refine ⟨by decide, h2, h3, ?_⟩
  rw [h2, h3]
  norm_num

/-- C7 amended: for every issuer with at least one fundamental, the
avg_sentiment feature is the average of the non-null sentiments among the 10
most recent events of the issuer (of any type), 0.0 when none of those ten
carries a sentiment. -/
theorem c7_avg_sentiment_amended (db : DB) (issuer_id : Nat)
    (h : issuerFunds db issuer_id ≠ []) :
    (compute_features_for_issuer db issuer_id).avg_sentiment
      = amendedAvgSentiment db issuer_id := by
  cases hfr : f_rowsOf db issuer_id with
  | nil =>
    exfalso
    apply h
    have : insertionSort (fun a b => decide (b.report_date ≤ a.report_date))
        (issuerFunds db issuer_id) = [] := by
      have := hfr
      unfold f_rowsOf at this
      rcases List.take_eq_nil_iff.mp this with h5 | hnil
      · exact absurd h5 (by norm_num)
      · exact hnil
    exact (insertionSort_eq_nil_iff _ _).mp this
  | cons latest restRows =>
    unfold compute_features_for_issuer
    rw [hfr]
    rfl

/-- Witness for C7 amended at the concrete database c7db. -/
theorem c7_avg_sentiment_amended_witness :
    issuerFunds c7db 1 ≠ [] ∧
    (compute_features_for_issuer c7db 1).avg_sentiment
      = amendedAvgSentiment c7db 1 :=
  ⟨by decide, c7_avg_sentiment_amended c7db 1 (by decide)⟩

/-- C9: issuer resolution scans the issuers once, in iteration order, and
returns the first whose ticker or (failing that) name occurs
case-insensitively as a substring of the lowered title, none when no issuer
matches; and every unprocessed news row gets its event inserted — also when
the resolution is none, so unattributed events are preserved. -/
theorem c9_issuer_resolution (issuers : List Issuer) (title : String)
    (db : DB) (vader : String → ℚ) (now : Int) (n : News) :
    matchIssuerLoop issuers (pyLower title) = specResolveIssuer issuers title ∧
    (n ∈ nlpRows db →
      mkEventForNews db.issuers vader now n
        ∈ (run_nlp_on_news db vader now).2.events) := by
  constructor
  · induction issuers with
    | nil => rfl
    | cons iss rest ih =>
      simp only [matchIssuerLoop, specResolveIssuer, List.find?] at ih ⊢
      cases h1 : (truthyStr iss.ticker
          && pyIn (pyLower (iss.ticker.getD "")) (pyLower title)) with
      | true => simp [h1]
      | false =>
        cases hname : (!decide (iss.name = "")
            && pyIn (pyLower iss.name) (pyLower title)) with
        | true => simp [h1, hname]
        | false =>
          simp only [h1, hname, Bool.false_eq_true, if_false, Bool.or_self]
          exact ih
  · intro hn
    simp only [run_nlp_on_news]
    exact List.mem_append_right _ (List.mem_map_of_mem _ hn)

/-- Witness for C9: a concrete database with one unprocessed news row whose
title mentions an issuer. -/
theorem c9_issuer_resolution_witness :
    c9news ∈ nlpRows c9db ∧
    mkEventForNews c9db.issuers vader0 0 c9news
      ∈ (run_nlp_on_news c9db vader0 0).2.events := by
  have hn : c9news ∈ nlpRows c9db := by decide
  exact ⟨hn, (c9_issuer_resolution [] "" c9db vader0 0 c9news).2 hn⟩

/-- C10: the NLP pass appends exactly one event per unprocessed news row,
built by mkEventForNews, whose issuer reference is computed from the title
alone — two news rows with equal titles resolve to the same issuer reference
regardless of their summaries (which still feed classification and
sentiment). -/
theorem c10_issuer_attribution_title_only (db : DB) (vader : String → ℚ)
    (now : Int) (issuers : List Issuer) (n1 n2 : News) :
    (run_nlp_on_news db vader now).2.events
      = db.events ++ (nlpRows db).map (mkEventForNews db.issuers vader now) ∧
    (n1.title = n2.title →
      (mkEventForNews issuers vader now n1).issuer_id
        = (mkEventForNews issuers vader now n2).issuer_id) := by
  refine ⟨rfl, fun h => ?_⟩
  show matchIssuerLoop issuers (pyLower n1.title)
    = matchIssuerLoop issuers (pyLower n2.title)
  rw [h]

/-- Witness for C10: two concrete news rows with the same title and different
summaries. -/
theorem c10_issuer_attribution_witness :
    c10n1.title = c10n2.title ∧
    (mkEventForNews wIssuers vader0 0 c10n1).issuer_id
      = (mkEventForNews wIssuers vader0 0 c10n2).issuer_id :=
  ⟨rfl, (c10_issuer_attribution_title_only emptyDB vader0 0 wIssuers c10n1 c10n2).2 rfl⟩

/-- C8: the returned attribution list is pairwise sorted by descending
absolute shap value (so every adjacent pair in particular), and ties keep
the feature declaration order: filtering the returned list at any absolute
value gives exactly the corresponding segment of the declaration-ordered
unsorted list. -/
theorem c8_attributions_sorted (model : FeatureVec → ℚ)
    (explainer : Option (FeatureVec → List ℚ)) (db : DB) (issuer_id : Nat) :
    List.Pairwise (fun a b => |b.shap_value| ≤ |a.shap_value|)
      (predict_and_explain model explainer db issuer_id).shap ∧
    ∀ q : ℚ,
      ((predict_and_explain model explainer db issuer_id).shap.filter
          fun e => decide (|e.shap_value| = q))
        = ((buildShapList explainer
            (compute_features_for_issuer db issuer_id)).filter
          fun e => decide (|e.shap_value| = q)) := by
  have hshap : (predict_and_explain model explainer db issuer_id).shap
      = insertionSort shapLe
          (buildShapList explainer (compute_features_for_issuer db issuer_id)) :=
    rfl
  have htrans : ∀ a b c : ShapEntry,
      shapLe a b = true → shapLe b c = true → shapLe a c = true := by
    intro a b c hab hbc
    simp only [shapLe, decide_eq_true_eq] at hab hbc ⊢
    exact hbc.trans hab
  have htotal : ∀ a b : ShapEntry, shapLe a b = true ∨ shapLe b a = true := by
    intro a b
    simp only [shapLe, decide_eq_true_eq]
    exact le_total _ _
  constructor
  · rw [hshap]
    exact (pairwise_insertionSort shapLe htrans htotal _).imp
      fun h => of_decide_eq_true h
  · intro q
    rw [hshap]
    apply filter_insertionSort
    intro a b hpa hle
    simp only [decide_eq_true_eq] at hpa
    simp only [shapLe, decide_eq_false_iff_not, not_le] at hle
    simp only [decide_eq_false_iff_not]
    intro hb
    exact absurd (le_of_eq (hb.trans hpa.symm)) (not_le.mpr hle)

/-- Every feed pass leaves the news table untouched and inserts nothing: an
entry with a falsy summary dies on the malformed getattr call and an entry
reaching the insert dies in crud.create_news, so only skip paths remain. -/
theorem processFeedEntries_fix (f : List FeedEntry) (db : List News) :
    processFeedEntries f db = (db, 0) := by
  induction f with
  | nil => rfl
  | cons e rest ih =>
    unfold processFeedEntries
    split
    · rfl
    · split
      · exact ih
      · split
        · exact ih
        · rfl

/-- ingest_rss consequently returns its news table unchanged with count 0. -/
theorem ingest_rss_fix (db : List News) (feeds : List (List FeedEntry)) :
    ingest_rss db feeds = (0, db) := by
  induction feeds generalizing db with
  | nil => rfl
  | cons f rest ih =>
    show (let fr := processFeedEntries f db
          let rr := ingest_rss fr.1 rest
          (fr.2 + rr.1, rr.2)) = (0, db)
    rw [processFeedEntries_fix f db]
    simp only []
    rw [ih db]
    rfl

/-- C4: an entry with a truthy summary whose link is already stored is a pure
skip (whatever its title or summary say), and re-running ingest_rss over the
same feeds against the table produced by a first run inserts zero items and
leaves the news table, hence its size, unchanged. -/
theorem c4_reingest_idempotent :
    (∀ (e : FeedEntry) (rest : List FeedEntry) (db : List News),
      truthyStr e.summary = true →
      (db.find? fun n => decide (n.link = e.link.getD "")).isSome = true →
      processFeedEntries (e :: rest) db = processFeedEntries rest db) ∧
    (∀ (db : List News) (feeds : List (List FeedEntry)),
      ingest_rss (ingest_rss db feeds).2 feeds = (0, (ingest_rss db feeds).2) ∧
      (ingest_rss (ingest_rss db feeds).2 feeds).2.length
        = (ingest_rss db feeds).2.length) := by
  constructor
  · intro e rest db hsum hfound
    rw [processFeedEntries_fix, processFeedEntries_fix]
  · intro db feeds
    rw [ingest_rss_fix]
    exact ⟨rfl, rfl⟩

/-- Witness for C4: a concrete stored item and a concrete feed entry with the
same link and a drifted title. -/
theorem c4_reingest_idempotent_witness :
    truthyStr c4entry.summary = true ∧
    (([c4news].find? fun n => decide (n.link = c4entry.link.getD "")).isSome
      = true) ∧
    processFeedEntries [c4entry] [c4news] = processFeedEntries [] [c4news] :=
  ⟨by decide, by decide,
    c4_reingest_idempotent.1 c4entry [] [c4news] (by decide) (by decide)⟩

/-- Unfolding equation of the sample loop at a cons cell. -/
theorem processPriceRows_cons (i : Nat) (t : String) (row : PriceRow)
    (rest : List PriceRow) (evs : List Event) :
    processPriceRows i t (row :: rest) evs =
      if rowCovered i row evs then processPriceRows i t rest evs
      else ((processPriceRows i t rest (evs ++ [mkPriceEvent i t row])).1,
            (processPriceRows i t rest (evs ++ [mkPriceEvent i t row])).2 + 1) :=
  rfl

/-- Unfolding equation of the issuer loop for a null-ticker issuer. -/
theorem ingestPricesGo_cons_none (histF : String → List PriceRow)
    (iss : Issuer) (rest : List Issuer) (evs : List Event)
    (htk : iss.ticker = none) :
    ingestPricesGo histF (iss :: rest) evs = ingestPricesGo histF rest evs := by
  obtain ⟨iid, iname, itk⟩ := iss
  change itk = none at htk
  subst htk
  rfl

/-- Unfolding equation of the issuer loop for an issuer with a ticker. -/
theorem ingestPricesGo_cons_some (histF : String → List PriceRow)
    (iss : Issuer) (rest : List Issuer) (evs : List Event) (t : String)
    (htk : iss.ticker = some t) :
    ingestPricesGo histF (iss :: rest) evs =
      if pyStrip t = "" then ingestPricesGo histF rest evs
      else if (histF (pyStrip t)).isEmpty = true then ingestPricesGo histF rest evs
      else ((ingestPricesGo histF rest
              (processPriceRows iss.id (pyStrip t) (histF (pyStrip t)) evs).1).1,
            (processPriceRows iss.id (pyStrip t) (histF (pyStrip t)) evs).2 +
              (ingestPricesGo histF rest
                (processPriceRows iss.id (pyStrip t) (histF (pyStrip t)) evs).1).2) := by
  obtain ⟨iid, iname, itk⟩ := iss
  change itk = some t at htk
  subst htk
  rfl

/-- Processing price rows only appends events. -/
theorem processPriceRows_append_ext (i : Nat) (t : String)
    (rows : List PriceRow) (evs : List Event) :
    ∃ ext, (processPriceRows i t rows evs).1 = evs ++ ext := by
  induction rows generalizing evs with
  | nil => exact ⟨[], (List.append_nil evs).symm⟩
  | cons row rest ih =>
    rw [processPriceRows_cons]
    by_cases hc : rowCovered i row evs = true
    · rw [if_pos hc]
      exact ih evs
    · rw [if_neg hc]
      obtain ⟨ext, hext⟩ := ih (evs ++ [mkPriceEvent i t row])
      refine ⟨[mkPriceEvent i t row] ++ ext, ?_⟩
      show (processPriceRows i t rest (evs ++ [mkPriceEvent i t row])).1
        = evs ++ ([mkPriceEvent i t row] ++ ext)
      rw [hext, List.append_assoc]

/-- A covered row stays covered when more events are appended. -/
theorem rowCovered_mono (i : Nat) (row : PriceRow) (evs ext : List Event)
    (h : rowCovered i row evs = true) :
    rowCovered i row (evs ++ ext) = true := by
  simp only [rowCovered, List.any_append, Bool.or_eq_true] at h ⊢
  tauto

/-- After a pass over some rows, every one of them is covered in the
resulting event table: a skipped row already had a duplicate witness (kept by
monotonicity) and an inserted row is its own day-duplicate witness. -/
theorem processPriceRows_covers (i : Nat) (t : String) (rows : List PriceRow)
    (evs : List Event) :
    ∀ row ∈ rows, rowCovered i row (processPriceRows i t rows evs).1 = true := by
  induction rows generalizing evs with
  | nil =>
    intro row h
    cases h
  | cons r rest ih =>
    intro row hrow
    rw [processPriceRows_cons]
    by_cases hc : rowCovered i r evs = true
    · rw [if_pos hc]
      rcases List.mem_cons.mp hrow with rfl | hmem
      · obtain ⟨ext, hext⟩ := processPriceRows_append_ext i t rest evs
        rw [hext]
        exact rowCovered_mono i row evs ext hc
      · exact ih evs row hmem
    · rw [if_neg hc]
      show rowCovered i row
        (processPriceRows i t rest (evs ++ [mkPriceEvent i t r])).1 = true
      rcases List.mem_cons.mp hrow with rfl | hmem
      · obtain ⟨ext, hext⟩ :=
          processPriceRows_append_ext i t rest (evs ++ [mkPriceEvent i t row])
        rw [hext]
        apply rowCovered_mono
        have hday : priceDayPred i (dayOf row.ts) (mkPriceEvent i t row) = true := by
          simp [priceDayPred, mkPriceEvent]
        simp [rowCovered, List.any_append, hday]
      · exact ih (evs ++ [mkPriceEvent i t r]) row hmem

/-- When every row is already covered, the pass is a no-op. -/
theorem processPriceRows_skip_all (i : Nat) (t : String) (rows : List PriceRow)
    (evs : List Event) (h : ∀ row ∈ rows, rowCovered i row evs = true) :
    processPriceRows i t rows evs = (evs, 0) := by
  induction rows with
  | nil => rfl
  | cons r rest ih =>
    rw [processPriceRows_cons, if_pos (h r (List.mem_cons_self r rest))]
    exact ih fun row hrow => h row (List.mem_cons_of_mem r hrow)

/-- The issuer loop only appends events. -/
theorem ingestPricesGo_append_ext (histF : String → List PriceRow)
    (issuers : List Issuer) (evs : List Event) :
    ∃ ext, (ingestPricesGo histF issuers evs).1 = evs ++ ext := by
  induction issuers generalizing evs with
  | nil => exact ⟨[], (List.append_nil evs).symm⟩
  | cons iss rest ih =>
    cases htk : iss.ticker with
    | none =>
      rw [ingestPricesGo_cons_none histF iss rest evs htk]
      exact ih evs
    | some t =>
      rw [ingestPricesGo_cons_some histF iss rest evs t htk]
      by_cases he1 : pyStrip t = ""
      · rw [if_pos he1]
        exact ih evs
      · rw [if_neg he1]
        by_cases he2 : (histF (pyStrip t)).isEmpty = true
        · rw [if_pos he2]
          exact ih evs
        · rw [if_neg he2]
          obtain ⟨ext1, hext1⟩ :=
            processPriceRows_append_ext iss.id (pyStrip t) (histF (pyStrip t)) evs
          obtain ⟨ext2, hext2⟩ :=
            ih (processPriceRows iss.id (pyStrip t) (histF (pyStrip t)) evs).1
          refine ⟨ext1 ++ ext2, ?_⟩
          show (ingestPricesGo histF rest
            (processPriceRows iss.id (pyStrip t) (histF (pyStrip t)) evs).1).1
              = evs ++ (ext1 ++ ext2)
          rw [hext2, hext1, List.append_assoc]

/-- After a full issuer pass, every sample row of every processed issuer is
covered in the resulting event table (unless that issuer was skipped for an
empty ticker or an empty history). -/
theorem ingestPricesGo_covers (histF : String → List PriceRow)
    (issuers : List Issuer) (evs : List Event) :
    ∀ iss ∈ issuers, ∀ t, iss.ticker = some t →
      pyStrip t = "" ∨ (histF (pyStrip t)).isEmpty = true ∨
        ∀ row ∈ histF (pyStrip t),
          rowCovered iss.id row (ingestPricesGo histF issuers evs).1 = true := by
  induction issuers generalizing evs with
  | nil =>
    intro iss h
    cases h
  | cons iss0 rest ih =>
    intro iss hmem t htk
    rcases List.mem_cons.mp hmem with rfl | hmem'
    · rw [ingestPricesGo_cons_some histF iss rest evs t htk]
      by_cases he1 : pyStrip t = ""
      · exact Or.inl he1
      · rw [if_neg he1]
        by_cases he2 : (histF (pyStrip t)).isEmpty = true
        · exact Or.inr (Or.inl he2)
        · rw [if_neg he2]
          refine Or.inr (Or.inr fun row hrow => ?_)
          show rowCovered iss.id row (ingestPricesGo histF rest
            (processPriceRows iss.id (pyStrip t) (histF (pyStrip t)) evs).1).1
              = true
          obtain ⟨ext, hext⟩ := ingestPricesGo_append_ext histF rest
            (processPriceRows iss.id (pyStrip t) (histF (pyStrip t)) evs).1
          rw [hext]
          exact rowCovered_mono _ _ _ _
            (processPriceRows_covers iss.id (pyStrip t) (histF (pyStrip t))
              evs row hrow)
    · cases htk0 : iss0.ticker with
      | none =>
        rw [ingestPricesGo_cons_none histF iss0 rest evs htk0]
        exact ih evs iss hmem' t htk
      | some t0 =>
        rw [ingestPricesGo_cons_some histF iss0 rest evs t0 htk0]
        by_cases he1 : pyStrip t0 = ""
        · rw [if_pos he1]
          exact ih evs iss hmem' t htk
        · rw [if_neg he1]
          by_cases he2 : (histF (pyStrip t0)).isEmpty = true
          · rw [if_pos he2]
            exact ih evs iss hmem' t htk
          · rw [if_neg he2]
            exact ih _ iss hmem' t htk

/-- When every relevant sample row is already covered, the issuer pass leaves
the event table unchanged and inserts zero events. -/
theorem ingestPricesGo_skip_all (histF : String → List PriceRow)
    (issuers : List Issuer) (evs : List Event)
    (h : ∀ iss ∈ issuers, ∀ t, iss.ticker = some t →
      pyStrip t = "" ∨ (histF (pyStrip t)).isEmpty = true ∨
        ∀ row ∈ histF (pyStrip t), rowCovered iss.id row evs = true) :
    ingestPricesGo histF issuers evs = (evs, 0) := by
  induction issuers with
  | nil => rfl
  | cons iss0 rest ih =>
    have hrest : ∀ iss ∈ rest, ∀ t, iss.ticker = some t →
        pyStrip t = "" ∨ (histF (pyStrip t)).isEmpty = true ∨
          ∀ row ∈ histF (pyStrip t), rowCovered iss.id row evs = true :=
      fun iss hm t htk => h iss (List.mem_cons_of_mem iss0 hm) t htk
    cases htk0 : iss0.ticker with
    | none =>
      rw [ingestPricesGo_cons_none histF iss0 rest evs htk0]
      exact ih hrest
    | some t0 =>
      rw [ingestPricesGo_cons_some histF iss0 rest evs t0 htk0]
      by_cases he1 : pyStrip t0 = ""
      · rw [if_pos he1]
        exact ih hrest
      · rw [if_neg he1]
        by_cases he2 : (histF (pyStrip t0)).isEmpty = true
        · rw [if_pos he2]
          exact ih hrest
        · rw [if_neg he2]
          rcases h iss0 (List.mem_cons_self iss0 rest) t0 htk0 with h1 | h2 | hcov
          · exact absurd h1 he1
          · exact absurd h2 he2
          · rw [processPriceRows_skip_all iss0.id (pyStrip t0)
              (histF (pyStrip t0)) evs hcov]
            show ((ingestPricesGo histF rest evs).1,
              0 + (ingestPricesGo histF rest evs).2) = (evs, 0)
            rw [ih hrest]
            rfl

/-- C5: a sample row for which a price event of the same issuer on the same
calendar day already exists is skipped outright, and a second full run of
ingest_yahoo_prices over the same provider data inserts zero price events and
leaves the event table unchanged. -/
theorem c5_price_day_dedup :
    (∀ (i : Nat) (t : String) (row : PriceRow) (rest : List PriceRow)
        (evs : List Event),
      evs.any (priceDayPred i (dayOf row.ts)) = true →
      processPriceRows i t (row :: rest) evs = processPriceRows i t rest evs) ∧
    (∀ (db : DB) (histF : String → List PriceRow),
      ingest_yahoo_prices (ingest_yahoo_prices db histF).2 histF
        = (0, (ingest_yahoo_prices db histF).2)) := by
  constructor
  · intro i t row rest evs h
    rw [processPriceRows_cons, if_pos (by simp [rowCovered, h])]
  · intro db histF
    have hcov := ingestPricesGo_covers histF db.issuers db.events
    have hskip := ingestPricesGo_skip_all histF db.issuers
      (ingestPricesGo histF db.issuers db.events).1 hcov
    show ((ingestPricesGo histF db.issuers
        (ingestPricesGo histF db.issuers db.events).1).2,
      { db with events := (ingestPricesGo histF db.issuers
        (ingestPricesGo histF db.issuers db.events).1).1 })
      = (0, { db with events := (ingestPricesGo histF db.issuers db.events).1 })
    rw [hskip]

/-- Witness for C5: issuer 1 already has a price event on calendar day 1, so
the provider's sample on that day is skipped. -/
theorem c5_price_day_dedup_witness :
    [c5evt].any (priceDayPred 1 (dayOf c5row.ts)) = true ∧
    processPriceRows 1 "ACM" [c5row] [c5evt]
      = processPriceRows 1 "ACM" [] [c5evt] :=
  ⟨by decide, c5_price_day_dedup.1 1 "ACM" c5row [] [c5evt] (by decide)⟩

end CrediitIntel
